import Mathlib

/-!
Verification of the bloom-index read path
(src/query/src/storages/fuse/io/read/bloom_index_reader.rs) and of the
integer-division arithmetic kernel
(src/common/functions/src/scalars/arithmetics/arithmetic_intdiv.rs)
of the databend repository, as a shallow embedding in Lean 4.

Modelling conventions:
* Byte payloads are lists of naturals; file paths and cache keys are strings,
  built exactly as the Rust code builds them (string formatting is modelled by
  string concatenation with Lean's decimal rendering of naturals, which is the
  same decimal rendering Rust's formatter produces).
* The asynchronous functions are modelled as state-passing functions over a
  state carrying the two optional caches of the request context, plus an
  instrumentation log of every storage range-read and metadata read performed
  (the log is how "does not invoke the storage interface" is made provable).
* Rust's fallible results are an explicit result type; an out-of-bounds index
  (which in Rust aborts with a runtime panic, not a typed error) is a separate
  constructor so that panics can be distinguished from typed errors.
* The external arrow/parquet decode library (page reader, decompressor,
  array reconstruction, row-group deserializer) and the metadata footer parser
  are collaborators outside this repository's source; they appear as explicit
  function parameters, so theorems quantify over their behavior and state any
  needed library contracts as hypotheses.
* The LRU cache collaborator is modelled from the spec contract (section 4.1:
  get returns the stored value, put inserts or replaces); capacity eviction is
  irrelevant to the claims treated here and is not modelled.
-/

/-- Decidable equality for Except results, used to evaluate the models on
concrete inputs. -/
instance {ε α : Type} [DecidableEq ε] [DecidableEq α] :
    DecidableEq (Except ε α) := fun x y =>
  match x, y with
  | .ok a, .ok b =>
    if h : a = b then .isTrue (by rw [h])
    else .isFalse (by intro hc; cases hc; exact h rfl)
  | .ok _, .error _ => .isFalse (by intro hc; cases hc)
  | .error _, .ok _ => .isFalse (by intro hc; cases hc)
  | .error e, .error f =>
    if h : e = f then .isTrue (by rw [h])
    else .isFalse (by intro hc; cases hc; exact h rfl)

namespace Fuse

/-- Byte payload of one column chunk. -/
abbrev Bytes := List Nat

/-- Typed errors of the read path, mirroring the ErrorCode constructors the
Rust file builds plus an abstract constructor for storage-layer failures. -/
inductive ErrorCode where
  | LogicalError (msg : String)
  | ParquetError (msg : String)
  | StorageError (msg : String)
deriving DecidableEq, Repr

/-- Result of running a piece of the read path: a value, a typed error, or a
runtime panic (Rust's out-of-bounds indexing aborts; it is not a typed error). -/
inductive RResult (α : Type) where
  | ok (a : α)
  | err (e : ErrorCode)
  | panicked (msg : String)
deriving DecidableEq, Repr

/-- True exactly on successful results. -/
def RResult.isOk {α : Type} : RResult α → Bool
  | .ok _ => true
  | _ => false

/-- Physical-type descriptor of one leaf column in the parquet schema
(opaque at this layer; only passed through to the decode library). -/
structure Descriptor where
  primitive_type : String
deriving DecidableEq, Repr

/-- One entry of file_meta.schema_descr.columns(). -/
structure SchemaColumn where
  descriptor : Descriptor
deriving DecidableEq, Repr

/-- Column-chunk metadata of one column inside a row group: the schema path of
the column, and the byte range of its encoded data
(offset of the first data page, total compressed size). -/
structure ColumnChunkMetaData where
  path_in_schema : List String
  data_page_offset : Nat
  total_compressed_size : Nat
deriving DecidableEq, Repr

/-- One row group: its column chunks and its row count. -/
structure RowGroup where
  columns : List ColumnChunkMetaData
  num_rows : Nat
deriving DecidableEq, Repr

/-- Parsed parquet file metadata: row groups plus the schema descriptor's
leaf-column list. -/
structure FileMetaData where
  row_groups : List RowGroup
  schema_descr : List SchemaColumn
deriving DecidableEq, Repr

/-- Data type of an output field; bloom columns are typed as raw byte strings
(Vu8, that is Vec of bytes) at this layer. -/
inductive DataTypeX where
  | Vu8Type
  | otherType (s : String)
deriving DecidableEq, Repr

/-- One field of the output schema. -/
structure DataField where
  name : String
  data_type : DataTypeX
deriving DecidableEq, Repr

/-- Arrow field of the schema inferred from the file metadata (opaque here). -/
abbrev ArrowField := String

/-- Arrow schema inferred from the file metadata by the external library. -/
structure ArrowSchema where
  fields : List ArrowField
deriving DecidableEq, Repr

/-- Decoded array iterator produced by the external decode library (opaque). -/
abbrev ArrayIter := List Nat

/-- Chunk yielded by the external row-group deserializer: its decoded arrays
and its row count. -/
structure Chunk where
  arrays : List (List Nat)
  len : Nat
deriving DecidableEq, Repr

/-- Error produced inside the external decode library, wrapped by the read
path via the ErrorCode conversion. -/
abbrev LibError := String

/-- Compression codec tag passed to the page reader. -/
inductive Compression where
  | Lz4Raw
  | otherCodec (s : String)
deriving DecidableEq, Repr

/-- PageMetaData handed to the external page reader, mirroring the struct the
Rust code builds field by field. -/
structure PageMetaData where
  column_start : Nat
  num_values : Int
  compression : Compression
  descriptor : Descriptor
deriving DecidableEq, Repr

/-- Final output block: the requested schema, the decoded column payloads, and
the row count.  Modelled from the spec: DataBlock.from_chunk of the
common_datablocks crate assembles the reconstructed columns plus the row count
into one block using the requested schema (spec sections 3 and 4.4). -/
structure DataBlock where
  schema : List DataField
  columns : List (List Nat)
  num_rows : Nat
deriving DecidableEq, Repr

/-- Modelled from the spec: conversion of the one produced chunk into the
final block (spec section 4.4 step 3: assemble all reconstructed columns plus
the row count into one decoded block using the requested schema). -/
def DataBlock.from_chunk (schema : List DataField) (chunk : Chunk) : DataBlock :=
  { schema := schema, columns := chunk.arrays, num_rows := chunk.len }

/-- Abstract storage object interface (the opendal Operator collaborator):
range_read reads the byte range lo..hi of the object at a path, and
read_metadata models opening a seekable byte stream at the path and parsing
the trailing footer into FileMetaData (read_metadata_async of the external
parquet library). -/
structure Operator where
  range_read : String → Nat → Nat → Except ErrorCode Bytes
  read_metadata : String → Except ErrorCode FileMetaData

/-- Bundle of the external arrow/parquet decode library functions used by the
orchestrator.  column_iter_to_arrays stands for the composition page reader,
decompressor and array reconstruction applied to one column's payload;
deserializer_next stands for one pull on the row-group deserializer built from
the per-column iterators and the row count; error_from is the ErrorCode
conversion applied to an error chunk's cause. -/
structure ArrowLib where
  infer_schema : FileMetaData → Except ErrorCode ArrowSchema
  column_iter_to_arrays :
    Bytes → PageMetaData → String → ArrowField → Nat → Except ErrorCode ArrayIter
  deserializer_next : List ArrayIter → Nat → Option (Except LibError Chunk)
  error_from : LibError → ErrorCode

/-- State threaded through the read path: the two optional caches reachable
from the request context (none means the cache is not configured), plus an
instrumentation log of storage range-reads and metadata reads performed. -/
structure St where
  byteCache : Option (List (String × Bytes))
  metaCache : Option (List (String × FileMetaData))
  rangeReads : List (String × Nat × Nat)
  metaReads : List String
deriving DecidableEq, Repr

/-- Cache lookup: first binding for the key (the spec's get). -/
def cacheGet {α : Type} : List (String × α) → String → Option α
  | [], _ => none
  | (k, v) :: rest, key => if k = key then some v else cacheGet rest key

/-- Cache insertion: a fresh binding shadowing any older one (observably the
spec's put, which inserts or replaces). -/
def cachePut {α : Type} (c : List (String × α)) (key : String) (v : α) :
    List (String × α) :=
  (key, v) :: c

/-- Byte-cache key of a column: the file path, a dash, and the decimal
rendering of the column's ordinal index, as built by the Rust format string. -/
def mkKey (path : String) (idx : Nat) : String :=
  path ++ "-" ++ Nat.repr idx

/-- Search of the first row group's column chunks for the one whose schema
path's first element equals the requested name, with the element's ordinal
index; mirrors cols.iter().enumerate().find on path_in_schema[0], including
the runtime panic when some chunk's schema path is empty. -/
inductive FindRes where
  | panicked (msg : String)
  | notFound
  | found (idx : Nat) (cm : ColumnChunkMetaData)
deriving DecidableEq, Repr

/-- The find loop itself, carrying the enumeration index. -/
def findColumn : List ColumnChunkMetaData → Nat → String → FindRes
  | [], _, _ => .notFound
  | cm :: rest, i, name =>
    match cm.path_in_schema with
    | [] => .panicked "index out of bounds: path_in_schema"
    | p :: _ => if p = name then .found i cm else findColumn rest (i + 1) name

/-- Message of the runtime panic raised by indexing an empty row-group list. -/
def rowGroupsPanic : String := "index out of bounds: row_groups"

/-- load_data: one range-read of the column's byte range
(data page offset .. offset + total compressed size), with the read logged. -/
def load_data (col_meta : ColumnChunkMetaData) (dal : Operator) (path : String)
    (st : St) : RResult Bytes × St :=
  let chunk_offset := col_meta.data_page_offset
  let col_len := col_meta.total_compressed_size
  let st' := { st with rangeReads := st.rangeReads ++ [(path, chunk_offset, chunk_offset + col_len)] }
  match dal.range_read path chunk_offset (chunk_offset + col_len) with
  | .ok bytes => (.ok bytes, st')
  | .error e => (.err e, st')

/-- load_column_bytes: resolve the column inside the first row group, then
serve its bytes from the byte cache when configured and populated, otherwise
fetch and (when a cache is configured) insert.  Returns the bytes and the
column's ordinal index. -/
def load_column_bytes (st : St) (file_meta : FileMetaData) (col_name : String)
    (path : String) (dal : Operator) : RResult (Bytes × Nat) × St :=
  match file_meta.row_groups with
  | [] => (.panicked rowGroupsPanic, st)
  | rg :: _ =>
    match findColumn rg.columns 0 col_name with
    | .panicked m => (.panicked m, st)
    | .notFound => (.err (.LogicalError ("no such column " ++ col_name)), st)
    | .found idx col_meta =>
      let cache_key := mkKey path idx
      match st.byteCache with
      | some cache =>
        match cacheGet cache cache_key with
        | some bytes => (.ok (bytes, idx), st)
        | none =>
          match load_data col_meta dal path st with
          | (.ok bytes, st') =>
            (.ok (bytes, idx),
              { st' with byteCache := some (cachePut cache cache_key bytes) })
          | (.err e, st') => (.err e, st')
          | (.panicked m, st') => (.panicked m, st')
      | none =>
        match load_data col_meta dal path st with
        | (.ok bytes, st') => (.ok (bytes, idx), st')
        | (.err e, st') => (.err e, st')
        | (.panicked m, st') => (.panicked m, st')

/-- load_index_meta: parse the file's footer through the storage interface,
with the metadata read logged. -/
def load_index_meta (dal : Operator) (path : String) (st : St) :
    RResult FileMetaData × St :=
  let st' := { st with metaReads := st.metaReads ++ [path] }
  match dal.read_metadata path with
  | .ok fm => (.ok fm, st')
  | .error e => (.err e, st')

/-- read_index_meta: serve the parsed file metadata from the metadata cache
under key path ++ "-bf" when configured, parsing and inserting on a miss;
parse without caching when no cache is configured. -/
def read_index_meta (st : St) (path : String) (dal : Operator) :
    RResult FileMetaData × St :=
  let cache_key := path ++ "-bf"
  match st.metaCache with
  | some cache =>
    match cacheGet cache cache_key with
    | some file_meta => (.ok file_meta, st)
    | none =>
      match load_index_meta dal path st with
      | (.ok file_meta, st') =>
        (.ok file_meta,
          { st' with metaCache := some (cachePut cache cache_key file_meta) })
      | (.err e, st') => (.err e, st')
      | (.panicked m, st') => (.panicked m, st')
  | none => load_index_meta dal path st

/-- Sequential rendering of the concurrent fan-out (try_join_all) over the
requested columns: every column's load in request order, failing fast on the
first failure, collecting values in request order on overall success. -/
def load_all_columns (st : St) (file_meta : FileMetaData) (cols : List String)
    (path : String) (dal : Operator) : RResult (List (Bytes × Nat)) × St :=
  match cols with
  | [] => (.ok [], st)
  | c :: rest =>
    match load_column_bytes st file_meta c path dal with
    | (.ok v, st') =>
      match load_all_columns st' file_meta rest path dal with
      | (.ok vs, st'') => (.ok (v :: vs), st'')
      | (.err e, st'') => (.err e, st'')
      | (.panicked m, st'') => (.panicked m, st'')
    | (.err e, st') => (.err e, st')
    | (.panicked m, st') => (.panicked m, st')

/-- The per-column decode loop of the orchestrator: for each fetched payload
and ordinal index, build the PageMetaData (column_start zero, the row count,
the fixed Lz4Raw codec, the schema descriptor of the column), then run the
external page-reader/decompressor/array-reconstruction composition; indexing
the schema descriptor list or the inferred arrow field list out of bounds is
a runtime panic, exactly as Rust's slice indexing. -/
def build_arrays (lib : ArrowLib) (file_meta : FileMetaData)
    (arrow_schema : ArrowSchema) (num_values : Nat) :
    List (Bytes × Nat) → RResult (List ArrayIter)
  | [] => .ok []
  | (bytes, col_idx) :: rest =>
    match file_meta.schema_descr.get? col_idx with
    | none => .panicked "index out of bounds: schema_descr columns"
    | some sc =>
      let page_meta_data : PageMetaData :=
        { column_start := 0
          num_values := (num_values : Int)
          compression := .Lz4Raw
          descriptor := sc.descriptor }
      match arrow_schema.fields.get? col_idx with
      | none => .panicked "index out of bounds: arrow fields"
      | some field =>
        match lib.column_iter_to_arrays bytes page_meta_data
            sc.descriptor.primitive_type field num_values with
        | .error e => .err e
        | .ok it =>
          match build_arrays lib file_meta arrow_schema num_values rest with
          | .ok its => .ok (it :: its)
          | .err e => .err e
          | .panicked m => .panicked m

/-- load_bloom_filter_by_columns: the orchestrator.  Load the file metadata,
take the first row group (a runtime panic when there is none), build the
requested schema (one Vu8 field per requested column in request order), load
every requested column's bytes, decode them, and pull one chunk from the
row-group deserializer: no chunk is a ParquetError, an error chunk is wrapped
through the ErrorCode conversion, a successful chunk becomes the block. -/
def load_bloom_filter_by_columns (lib : ArrowLib) (st : St) (dal : Operator)
    (columns : List String) (path : String) : RResult DataBlock × St :=
  match read_index_meta st path dal with
  | (.ok file_meta, st1) =>
    match file_meta.row_groups with
    | [] => (.panicked rowGroupsPanic, st1)
    | row_group :: _ =>
      let fields := columns.map (fun name => DataField.mk name .Vu8Type)
      let schema := fields
      match load_all_columns st1 file_meta columns path dal with
      | (.ok cols_data, st2) =>
        match lib.infer_schema file_meta with
        | .error e => (.err e, st2)
        | .ok arrow_schema =>
          let num_values := row_group.num_rows
          match build_arrays lib file_meta arrow_schema num_values cols_data with
          | .panicked m => (.panicked m, st2)
          | .err e => (.err e, st2)
          | .ok columns_array_iter =>
            match lib.deserializer_next columns_array_iter num_values with
            | none => (.err (.ParquetError "fail to get a chunk"), st2)
            | some (.error cause) => (.err (lib.error_from cause), st2)
            | some (.ok chunk) => (.ok (DataBlock.from_chunk schema chunk), st2)
      | (.err e, st2) => (.err e, st2)
      | (.panicked m, st2) => (.panicked m, st2)
  | (.err e, st1) => (.err e, st1)
  | (.panicked m, st1) => (.panicked m, st1)

end Fuse

namespace IntDivFn

/-!
Model of ArithmeticIntDiv::arithmetic
(src/common/functions/src/scalars/arithmetics/arithmetic_intdiv.rs lines
48..102).  Numeric values of both primitive element types are modelled as
rationals; the conversions to f64 (AsPrimitive) are modelled as the identity.
This idealises f64 arithmetic as exact, which is faithful for everything the
claims about this function concern: the divisor-zero test r == 0.0 agrees
exactly with rational equality to zero, since converting any primitive numeric
value to f64 yields zero exactly when the value is zero.  A Constant operand
carries the result of DFTryFrom::try_from as an Option: none models a failed
conversion of the constant's DataValue to the operand's primitive type. -/

/-- Error type: the BadArguments error code the function builds. -/
inductive AErr where
  | BadArguments (msg : String)
deriving DecidableEq, Repr

/-- A data column operand: a full array of values, or a constant value (the
Option models whether DFTryFrom succeeds) with a row count. -/
inductive DataColumn where
  | array (values : List ℚ)
  | constant (value : Option ℚ) (size : Nat)
deriving DecidableEq, Repr

/-- Truncation toward zero, modelling the cast of an f64 quotient to the
integral result type R (AsPrimitive's float-to-int cast): the numerator
divided by the denominator with integer division, which truncates toward
zero. -/
def truncQ (q : ℚ) : ℚ :=
  ((q.num.tdiv (q.den : Int) : Int) : ℚ)

/-- try_binary: elementwise combination of two arrays, failing fast on the
first error (iterator zip collected into a fallible array). -/
def tryBinary (ls rs : List ℚ) (f : ℚ → ℚ → Except AErr ℚ) :
    Except AErr (List ℚ) :=
  match ls, rs with
  | [], _ => .ok []
  | _, [] => .ok []
  | l :: ls', r :: rs' =>
    match f l r with
    | .error e => .error e
    | .ok v =>
      match tryBinary ls' rs' f with
      | .error e => .error e
      | .ok vs => .ok (v :: vs)

/-- try_unary: elementwise map over one array, failing fast on the first
error. -/
def tryUnary (rs : List ℚ) (f : ℚ → Except AErr ℚ) : Except AErr (List ℚ) :=
  match rs with
  | [] => .ok []
  | r :: rs' =>
    match f r with
    | .error e => .error e
    | .ok v =>
      match tryUnary rs' f with
      | .error e => .error e
      | .ok vs => .ok (v :: vs)

/-- ArithmeticIntDiv::arithmetic.  The four cases of the match on the two
operand columns; a failed conversion of a constant left operand is replaced by
the type's default (zero), a failed conversion of a constant right operand is
replaced by one (unwrap_or of D::one()). -/
def arithmetic (left right : DataColumn) : Except AErr DataColumn :=
  match left, right with
  | .array ls, .array rs =>
    match tryBinary ls rs (fun l r =>
        if r = 0 then .error (.BadArguments "Division by zero")
        else .ok (truncQ (l / r))) with
    | .error e => .error e
    | .ok vs => .ok (.array vs)
  | .array ls, .constant rv _ =>
    let rhs : ℚ := rv.getD 1
    if rhs = 0 then .error (.BadArguments "Division by zero")
    else .ok (.array (ls.map (fun l => truncQ (l / rhs))))
  | .constant lv _, .array rs =>
    let lhs : ℚ := lv.getD 0
    match tryUnary rs (fun r =>
        if r = 0 then .error (.BadArguments "Division by zero")
        else .ok (truncQ (lhs / r))) with
    | .error e => .error e
    | .ok vs => .ok (.array vs)
  | .constant lv size, .constant rv _ =>
    let lhs : ℚ := lv.getD 0
    let rhs : ℚ := rv.getD 1
    if rhs = 0 then .error (.BadArguments "Division by zero")
    else .ok (.constant (some (truncQ (lhs / rhs))) size)

end IntDivFn

/-- Numeric value of a decimal digit character, used to decode the decimal
rendering of cache-key indices. -/
def digitVal (c : Char) : Nat := c.toNat - 48

/-- Decimal decoding of a digit string (most significant digit first). -/
def decodeDigits (l : List Char) : Nat :=
  l.foldl (fun a c => a * 10 + digitVal c) 0

namespace Fuse

/-! Concrete fixtures used to evaluate the model on explicit inputs.  The
storage object serves a two-column file (columns a and b, byte ranges 0..4 and
4..8, five rows); metaOne describes it with a single row group, metaTwo with
two row groups.  The concrete decode-library bundle decodes a payload to
itself and yields one chunk holding the decoded arrays and the row count. -/

/-- Column chunk of column a: bytes 0..4. -/
def cmA : ColumnChunkMetaData :=
  { path_in_schema := ["a"], data_page_offset := 0, total_compressed_size := 4 }

/-- Column chunk of column b: bytes 4..8. -/
def cmB : ColumnChunkMetaData :=
  { path_in_schema := ["b"], data_page_offset := 4, total_compressed_size := 4 }

/-- The row group holding columns a and b with five rows. -/
def rgAB : RowGroup := { columns := [cmA, cmB], num_rows := 5 }

/-- File metadata with exactly one row group. -/
def metaOne : FileMetaData :=
  { row_groups := [rgAB], schema_descr := [⟨⟨"pa"⟩⟩, ⟨⟨"pb"⟩⟩] }

/-- File metadata with two row groups (the multi-row-group shape the spec
says should be rejected). -/
def metaTwo : FileMetaData :=
  { row_groups := [rgAB, rgAB], schema_descr := [⟨⟨"pa"⟩⟩, ⟨⟨"pb"⟩⟩] }

/-- Storage object whose range-read returns the identified byte range of a
synthetic file and whose footer parses to metaOne. -/
def dalOne : Operator :=
  { range_read := fun _ lo hi => .ok ((List.range (hi - lo)).map (· + lo))
    read_metadata := fun _ => .ok metaOne }

/-- Storage object identical to dalOne except that its footer parses to
metaTwo. -/
def dalTwo : Operator :=
  { range_read := fun _ lo hi => .ok ((List.range (hi - lo)).map (· + lo))
    read_metadata := fun _ => .ok metaTwo }

/-- Concrete decode-library bundle: schema inference lists one field per
schema column, array reconstruction returns the payload, and the deserializer
yields exactly one successful chunk carrying the arrays and the row count. -/
def libOne : ArrowLib :=
  { infer_schema := fun fm => .ok ⟨fm.schema_descr.map (fun _ => "f")⟩
    column_iter_to_arrays := fun b _ _ _ _ => .ok b
    deserializer_next := fun its n => some (.ok ⟨its, n⟩)
    error_from := fun s => .ParquetError s }

/-- Initial state with neither cache configured. -/
def stNone : St := ⟨none, none, [], []⟩

/-- Initial state with both caches configured and empty. -/
def stEmpty : St := ⟨some [], some [], [], []⟩

/-- A column resolution that a state reproduces: the column is found at this
ordinal index, and its bytes are pinned either by a cache binding under the
column's key (when a byte cache is configured) or by the deterministic
storage read (when not).  Loading the column from such a state returns
exactly this value. -/
def ColStable (fm : FileMetaData) (path : String) (dal : Operator) (st : St)
    (c : String) (v : Bytes × Nat) : Prop :=
  ∃ rg rgs cm, fm.row_groups = rg :: rgs ∧
    findColumn rg.columns 0 c = .found v.2 cm ∧
    match st.byteCache with
    | some cache => cacheGet cache (mkKey path v.2) = some v.1
    | none =>
      dal.range_read path cm.data_page_offset
        (cm.data_page_offset + cm.total_compressed_size) = .ok v.1

/-- A metadata resolution that a state reproduces: the parsed metadata is
pinned either by a cache binding under the metadata key or by the
deterministic footer parse. -/
def MetaStable (path : String) (dal : Operator) (st : St)
    (fm : FileMetaData) : Prop :=
  match st.metaCache with
  | some cache => cacheGet cache (path ++ "-bf") = some fm
  | none => dal.read_metadata path = .ok fm

/-- Column chunks of the first row group (empty when there is none; only used
where the first row group exists). -/
def rg0cols (fm : FileMetaData) : List ColumnChunkMetaData :=
  match fm.row_groups with
  | [] => []
  | rg :: _ => rg.columns

/-- Coherence of a byte cache with storage: every binding is the key of some
column ordinal of the first row group holding exactly the bytes the storage
read of that column returns. -/
def CacheCoherent (fm : FileMetaData) (path : String) (dal : Operator)
    (cache : List (String × Bytes)) : Prop :=
  ∀ k b, (k, b) ∈ cache → ∃ idx cm, k = mkKey path idx ∧
    (rg0cols fm).get? idx = some cm ∧
    dal.range_read path cm.data_page_offset
      (cm.data_page_offset + cm.total_compressed_size) = .ok b

end Fuse

/-! Injectivity of the decimal rendering of naturals, needed to reason about
byte-cache keys: two distinct column ordinals always produce distinct cache
keys. -/

/-- The value of the digit character of a digit is the digit. -/
theorem digitVal_digitChar : ∀ d, d < 10 → digitVal (Nat.digitChar d) = d := by
  decide

/-- The accumulator of the digit-rendering loop is only appended to. -/
theorem toDigitsCore_append :
    ∀ (fuel n : Nat) (ds : List Char), n < fuel →
      Nat.toDigitsCore 10 fuel n ds = Nat.toDigitsCore 10 fuel n [] ++ ds := by
  intro fuel
  induction fuel with
  | zero => intro n ds h; omega
  | succ f ih =>
    intro n ds h
    simp only [Nat.toDigitsCore]
    by_cases h0 : n / 10 = 0
    · simp [h0]
    · have hd : n / 10 < n := Nat.div_lt_self (by omega) (by omega)
      have hf : n / 10 < f := by
        have h1 : 1 ≤ n / 10 := Nat.pos_of_ne_zero h0
        have h10 : 10 ≤ n := by
          by_contra hn
          exact h0 (Nat.div_eq_of_lt (by omega))
        omega
      simp only [h0, if_false]
      rw [ih (n / 10) _ hf, ih (n / 10) [Nat.digitChar (n % 10)] hf,
        List.append_assoc]
      rfl

/-- Decoding the rendered digits of a natural recovers the natural. -/
theorem decode_toDigitsCore (n : Nat) :
    ∀ fuel, n < fuel → decodeDigits (Nat.toDigitsCore 10 fuel n []) = n := by
  induction n using Nat.strong_induction_on with
  | _ n ih =>
    intro fuel h
    match fuel, h with
    | f + 1, h =>
      simp only [Nat.toDigitsCore]
      by_cases h0 : n / 10 = 0
      · have hn : n < 10 := by
          by_contra hn
          have : 1 ≤ n / 10 := Nat.one_le_div_iff (by omega) |>.mpr (by omega)
          omega
        simp [h0, decodeDigits, digitVal_digitChar n hn, Nat.mod_eq_of_lt hn]
      · have hd : n / 10 < n := Nat.div_lt_self (Nat.pos_of_ne_zero (by omega)) (by omega)
        have hf : n / 10 < f := by
          have h1 : 1 ≤ n / 10 := Nat.pos_of_ne_zero h0
          have h10 : 10 ≤ n := by
            by_contra hn
            exact h0 (Nat.div_eq_of_lt (by omega))
          omega
        simp only [h0, if_false]
        rw [toDigitsCore_append f (n / 10) [Nat.digitChar (n % 10)] hf]
        have hmod : n % 10 < 10 := Nat.mod_lt _ (by omega)
        simp only [decodeDigits, List.foldl_append] at ih ⊢
        rw [ih (n / 10) hd f hf]
        simp [List.foldl, digitVal_digitChar _ hmod]
        omega

/-- The decimal rendering of naturals is injective. -/
theorem natRepr_injective : ∀ m n : Nat, Nat.repr m = Nat.repr n → m = n := by
  intro m n h
  have hdata : Nat.toDigits 10 m = Nat.toDigits 10 n := by
    have := congrArg String.data h
    simpa [Nat.repr, List.asString] using this
  have hm := decode_toDigitsCore m (m + 1) (Nat.lt_succ_self m)
  have hn := decode_toDigitsCore n (n + 1) (Nat.lt_succ_self n)
  simp only [Nat.toDigits] at hdata
  rw [← hm, ← hn, hdata]

namespace Fuse

/-- Distinct column ordinals produce distinct byte-cache keys. -/
theorem mkKey_inj (p : String) (i j : Nat) (h : mkKey p i = mkKey p j) :
    i = j := by
  apply natRepr_injective
  have h2 := congrArg String.data h
  simp only [mkKey, String.data_append] at h2
  have h3 := List.append_cancel_left h2
  exact String.ext h3

/-- C7: read_index_meta uses the cache key path ++ "-bf"; with a configured
metadata cache it returns the cached metadata on a hit leaving everything
unchanged, and on a miss it parses the footer from storage, inserts the
parsed metadata under that key and returns it; with no cache configured it
parses and returns without caching. -/
theorem claim_c7 :
    (∀ (st : St) (path : String) (dal : Operator) cache (fm : FileMetaData),
      st.metaCache = some cache →
      cacheGet cache (path ++ "-bf") = some fm →
      read_index_meta st path dal = (.ok fm, st)) ∧
    (∀ (st : St) (path : String) (dal : Operator) cache (fm : FileMetaData),
      st.metaCache = some cache →
      cacheGet cache (path ++ "-bf") = none →
      dal.read_metadata path = .ok fm →
      read_index_meta st path dal =
        (.ok fm,
          { st with
              metaCache := some (cachePut cache (path ++ "-bf") fm)
              metaReads := st.metaReads ++ [path] })) ∧
    (∀ (st : St) (path : String) (dal : Operator) (fm : FileMetaData),
      st.metaCache = none →
      dal.read_metadata path = .ok fm →
      read_index_meta st path dal =
        (.ok fm, { st with metaReads := st.metaReads ++ [path] })) := by
  refine ⟨?_, ?_, ?_⟩
  · intro st path dal cache fm hc hget
    simp [read_index_meta, hc, hget]
  · intro st path dal cache fm hc hget hparse
    simp [read_index_meta, load_index_meta, hc, hget, hparse]
  · intro st path dal fm hc hparse
    simp [read_index_meta, load_index_meta, hc, hparse]

/-- C7 witness: the three cases on concrete states over dalOne. -/
theorem claim_c7_witness :
    read_index_meta ⟨none, some [("p-bf", metaTwo)], [], []⟩ "p" dalOne =
      (.ok metaTwo, ⟨none, some [("p-bf", metaTwo)], [], []⟩) ∧
    read_index_meta stEmpty "p" dalOne =
      (.ok metaOne,
        { stEmpty with
            metaCache := some (cachePut [] ("p" ++ "-bf") metaOne)
            metaReads := stEmpty.metaReads ++ ["p"] }) ∧
    read_index_meta stNone "p" dalOne =
      (.ok metaOne, { stNone with metaReads := stNone.metaReads ++ ["p"] }) :=
  ⟨claim_c7.1 ⟨none, some [("p-bf", metaTwo)], [], []⟩ "p" dalOne
      [("p-bf", metaTwo)] metaTwo rfl (by decide),
    claim_c7.2.1 stEmpty "p" dalOne [] metaOne rfl (by decide) rfl,
    claim_c7.2.2 stNone "p" dalOne metaOne rfl rfl⟩

/-- C3: with a configured byte cache, a column already cached under the key
path-index is served from the cache with its ordinal index, with no state
change and hence no storage invocation; a miss range-reads exactly the bytes
offset .. offset + compressed size, inserts the fetched payload under that
key, and returns it with the ordinal index. -/
theorem claim_c3 :
    (∀ (st : St) (fm : FileMetaData) (name path : String) (dal : Operator)
      (rg : RowGroup) rgs idx cm cache (bytes : Bytes),
      fm.row_groups = rg :: rgs →
      findColumn rg.columns 0 name = .found idx cm →
      st.byteCache = some cache →
      cacheGet cache (mkKey path idx) = some bytes →
      load_column_bytes st fm name path dal = (.ok (bytes, idx), st)) ∧
    (∀ (st : St) (fm : FileMetaData) (name path : String) (dal : Operator)
      (rg : RowGroup) rgs idx cm cache (bytes : Bytes),
      fm.row_groups = rg :: rgs →
      findColumn rg.columns 0 name = .found idx cm →
      st.byteCache = some cache →
      cacheGet cache (mkKey path idx) = none →
      dal.range_read path cm.data_page_offset
        (cm.data_page_offset + cm.total_compressed_size) = .ok bytes →
      load_column_bytes st fm name path dal =
        (.ok (bytes, idx),
          { st with
              byteCache := some (cachePut cache (mkKey path idx) bytes)
              rangeReads := st.rangeReads ++
                [(path, cm.data_page_offset,
                  cm.data_page_offset + cm.total_compressed_size)] })) := by
  refine ⟨?_, ?_⟩
  · intro st fm name path dal rg rgs idx cm cache bytes hrg hfind hc hget
    simp [load_column_bytes, hrg, hfind, hc, hget]
  · intro st fm name path dal rg rgs idx cm cache bytes hrg hfind hc hget hread
    simp [load_column_bytes, load_data, hrg, hfind, hc, hget, hread]

/-- C3 witness: a hit on a prepopulated cache returns the cached payload with
no state change; a miss on the empty cache fetches the exact byte range and
inserts it. -/
theorem claim_c3_witness :
    load_column_bytes ⟨some [("p-0", [9, 9])], none, [], []⟩ metaOne "a" "p"
        dalOne =
      (.ok ([9, 9], 0), ⟨some [("p-0", [9, 9])], none, [], []⟩) ∧
    load_column_bytes stEmpty metaOne "a" "p" dalOne =
      (.ok ([0, 1, 2, 3], 0),
        { stEmpty with
            byteCache := some (cachePut [] (mkKey "p" 0) [0, 1, 2, 3])
            rangeReads := stEmpty.rangeReads ++ [("p", 0, 0 + 4)] }) :=
  ⟨claim_c3.1 ⟨some [("p-0", [9, 9])], none, [], []⟩ metaOne "a" "p" dalOne
      rgAB [] 0 cmA [("p-0", [9, 9])] [9, 9] rfl (by decide) rfl (by decide),
    claim_c3.2 stEmpty metaOne "a" "p" dalOne rgAB [] 0 cmA [] [0, 1, 2, 3]
      rfl (by decide) rfl (by decide) (by decide)⟩

/-- Requested name absent from every descriptor's schema path (all of which
are nonempty): the column search reports not found. -/
theorem findColumn_notFound
    (name : String) :
    ∀ (cols : List ColumnChunkMetaData) (i : Nat),
      (∀ cm ∈ cols, ∃ p ps, cm.path_in_schema = p :: ps ∧ p ≠ name) →
      findColumn cols i name = .notFound := by
  intro cols
  induction cols with
  | nil => intro i _; rfl
  | cons c rest ih =>
    intro i hmiss
    obtain ⟨p, ps, hpath, hne⟩ := hmiss c (by simp)
    simp only [findColumn, hpath, hne, if_false]
    exact ih (i + 1) (fun cm hcm => hmiss cm (by simp [hcm]))

/-- A requested column that is missing from the first row group makes the
whole fan-out fail: the sequential rendering of try_join_all never returns a
value list. -/
theorem load_all_columns_missing
    (fm : FileMetaData) (name path : String) (dal : Operator)
    (rg : RowGroup) (rgs : List RowGroup)
    (hrg : fm.row_groups = rg :: rgs)
    (hmiss : ∀ cm ∈ rg.columns, ∃ p ps, cm.path_in_schema = p :: ps ∧ p ≠ name) :
    ∀ (cols : List String) (st : St), name ∈ cols →
      ∀ vs st2, load_all_columns st fm cols path dal ≠ (.ok vs, st2) := by
  have hone : ∀ st : St, load_column_bytes st fm name path dal =
      (.err (.LogicalError ("no such column " ++ name)), st) := by
    intro st
    simp [load_column_bytes, hrg, findColumn_notFound name rg.columns 0 hmiss]
  intro cols
  induction cols with
  | nil => intro st hmem; simp at hmem
  | cons c rest ih =>
    intro st hmem vs st2
    by_cases hc : c = name
    · subst hc
      simp [load_all_columns, hone st]
    · have hmem' : name ∈ rest := by
        rcases List.mem_cons.mp hmem with h | h
        · exact absurd h.symm hc
        · exact h
      simp only [load_all_columns]
      match hload : load_column_bytes st fm c path dal with
      | (.ok v, st') =>
        simp only
        match hrest : load_all_columns st' fm rest path dal with
        | (.ok vs', st'') =>
          exact absurd hrest (ih st' hmem' vs' st'')
        | (.err e, st'') => simp
        | (.panicked m, st'') => simp
      | (.err e, st') => simp
      | (.panicked m, st') => simp

/-- C4: a requested column name matching no descriptor of the first row group
(by the first element of its schema path) makes load_column_bytes fail with
the missing-column error naming that column, and makes
load_bloom_filter_by_columns never return a block. -/
theorem claim_c4 :
    (∀ (st : St) (fm : FileMetaData) (name path : String) (dal : Operator)
      (rg : RowGroup) rgs,
      fm.row_groups = rg :: rgs →
      (∀ cm ∈ rg.columns, ∃ p ps, cm.path_in_schema = p :: ps ∧ p ≠ name) →
      load_column_bytes st fm name path dal =
        (.err (.LogicalError ("no such column " ++ name)), st)) ∧
    (∀ (lib : ArrowLib) (st : St) (dal : Operator) (cols : List String)
      (path name : String) (fm : FileMetaData) (st1 : St) (rg : RowGroup) rgs,
      name ∈ cols →
      read_index_meta st path dal = (.ok fm, st1) →
      fm.row_groups = rg :: rgs →
      (∀ cm ∈ rg.columns, ∃ p ps, cm.path_in_schema = p :: ps ∧ p ≠ name) →
      ∀ b st2,
        load_bloom_filter_by_columns lib st dal cols path ≠ (.ok b, st2)) := by
  refine ⟨?_, ?_⟩
  · intro st fm name path dal rg rgs hrg hmiss
    simp [load_column_bytes, hrg, findColumn_notFound name rg.columns 0 hmiss]
  · intro lib st dal cols path name fm st1 rg rgs hmem hread hrg hmiss b st2
    simp only [load_bloom_filter_by_columns, hread, hrg]
    match hload : load_all_columns st1 fm cols path dal with
    | (.ok vs, st3) =>
      exact absurd hload
        (load_all_columns_missing fm name path dal rg rgs hrg hmiss cols st1
          hmem vs st3)
    | (.err e, st3) => simp
    | (.panicked m, st3) => simp

/-- C4 witness: requesting the absent column c from the two-column file gives
the missing-column error naming c, and the orchestrator returns no block. -/
theorem claim_c4_witness :
    load_column_bytes stNone metaOne "c" "p" dalOne =
      (.err (.LogicalError ("no such column " ++ "c")), stNone) ∧
    load_bloom_filter_by_columns libOne stNone dalOne ["a", "c"] "p" ≠
      (.ok ⟨[], [], 0⟩, stNone) := by
  have hmiss : ∀ cm ∈ rgAB.columns,
      ∃ p ps, cm.path_in_schema = p :: ps ∧ p ≠ "c" := by
    intro cm hcm
    rcases List.mem_cons.mp hcm with h | h
    · exact ⟨"a", [], by simp [h, cmA], by decide⟩
    · rcases List.mem_cons.mp h with h2 | h2
      · exact ⟨"b", [], by simp [h2, cmB], by decide⟩
      · simp at h2
  exact ⟨claim_c4.1 stNone metaOne "c" "p" dalOne rgAB [] rfl hmiss,
    claim_c4.2 libOne stNone dalOne ["a", "c"] "p" "c" metaOne
      ⟨none, none, [], ["p"]⟩ rgAB [] (by decide) (by decide) rfl hmiss
      ⟨[], [], 0⟩ stNone⟩

/-- C8: at the final step, once the metadata is loaded, the columns fetched,
the arrow schema inferred and the per-column iterators built, the pull on the
row-group deserializer decides the outcome: no chunk is the descriptive
ParquetError, an error chunk is wrapped through the ErrorCode conversion, and
a successful chunk is converted into the returned block. -/
theorem claim_c8 (lib : ArrowLib) (st : St) (dal : Operator)
    (cols : List String) (path : String) (fm : FileMetaData) (st1 : St)
    (rg : RowGroup) (rgs : List RowGroup) (cols_data : List (Bytes × Nat))
    (st2 : St) (asch : ArrowSchema) (iters : List ArrayIter)
    (hread : read_index_meta st path dal = (.ok fm, st1))
    (hrg : fm.row_groups = rg :: rgs)
    (hcols : load_all_columns st1 fm cols path dal = (.ok cols_data, st2))
    (hinfer : lib.infer_schema fm = .ok asch)
    (hbuild : build_arrays lib fm asch rg.num_rows cols_data = .ok iters) :
    (lib.deserializer_next iters rg.num_rows = none →
      load_bloom_filter_by_columns lib st dal cols path =
        (.err (.ParquetError "fail to get a chunk"), st2)) ∧
    (∀ cause, lib.deserializer_next iters rg.num_rows = some (.error cause) →
      load_bloom_filter_by_columns lib st dal cols path =
        (.err (lib.error_from cause), st2)) ∧
    (∀ chunk, lib.deserializer_next iters rg.num_rows = some (.ok chunk) →
      load_bloom_filter_by_columns lib st dal cols path =
        (.ok (DataBlock.from_chunk
          (cols.map (fun name => DataField.mk name .Vu8Type)) chunk), st2)) := by
  refine ⟨?_, ?_, ?_⟩
  · intro hnext
    simp [load_bloom_filter_by_columns, hread, hrg, hcols, hinfer, hbuild,
      hnext]
  · intro cause hnext
    simp [load_bloom_filter_by_columns, hread, hrg, hcols, hinfer, hbuild,
      hnext]
  · intro chunk hnext
    simp [load_bloom_filter_by_columns, hread, hrg, hcols, hinfer, hbuild,
      hnext]

/-- C8 witness: a decode library whose deserializer yields no chunk makes the
orchestrator fail with the descriptive ParquetError. -/
theorem claim_c8_witness :
    load_bloom_filter_by_columns
      { libOne with deserializer_next := fun _ _ => none }
      stNone dalOne ["a"] "p" =
      (.err (.ParquetError "fail to get a chunk"),
        ⟨none, none, [("p", 0, 0 + 4)], ["p"]⟩) :=
  (claim_c8 { libOne with deserializer_next := fun _ _ => none }
    stNone dalOne ["a"] "p" metaOne ⟨none, none, [], ["p"]⟩ rgAB []
    [([0, 1, 2, 3], 0)] ⟨none, none, [("p", 0, 0 + 4)], ["p"]⟩
    ⟨["f", "f"]⟩ [[0, 1, 2, 3]]
    (by decide) (by decide) (by decide) (by decide) (by decide)).1 rfl

/-- C2: every successful call returns a block whose fields are exactly the
requested column names in request order, each typed Vu8, and whose row count
is the first row group's row count, given the library contract that the
deserializer's successful chunk carries the row count it was constructed
with. -/
theorem claim_c2 (lib : ArrowLib) (st : St) (dal : Operator)
    (cols : List String) (path : String) (block : DataBlock) (st2 : St)
    (hlib : ∀ a n c, lib.deserializer_next a n = some (.ok c) → c.len = n)
    (h : load_bloom_filter_by_columns lib st dal cols path = (.ok block, st2)) :
    block.schema = cols.map (fun name => DataField.mk name .Vu8Type) ∧
    ∃ fm st1 rg rgs, read_index_meta st path dal = (.ok fm, st1) ∧
      fm.row_groups = rg :: rgs ∧ block.num_rows = rg.num_rows := by
  simp only [load_bloom_filter_by_columns] at h
  split at h
  case _ fm st1 hread =>
    split at h
    · simp at h
    case _ rg rgs hrgs =>
      split at h
      case _ cols_data st3 hcols =>
        split at h
        · simp at h
        case _ asch hinfer =>
          split at h
          · simp at h
          · simp at h
          case _ iters hbuild =>
            split at h
            · simp at h
            · simp at h
            case _ chunk hnext =>
              rw [Prod.mk.injEq] at h
              obtain ⟨hb, hst⟩ := h
              cases hb
              refine ⟨rfl, fm, st1, rg, rgs, hread, hrgs, ?_⟩
              exact hlib _ _ _ hnext
      · simp at h
      · simp at h
  · simp at h
  · simp at h

/-- C2 witness: a concrete successful call in which the physical order of the
file's columns is a then b while the request order is b then a: the block's
fields follow the request order and the row count is the row group's. -/
theorem claim_c2_witness :
    (RResult.ok
      (⟨[⟨"b", .Vu8Type⟩, ⟨"a", .Vu8Type⟩], [[4, 5, 6, 7], [0, 1, 2, 3]], 5⟩ :
        DataBlock)).isOk = true ∧
    (⟨[⟨"b", .Vu8Type⟩, ⟨"a", .Vu8Type⟩], [[4, 5, 6, 7], [0, 1, 2, 3]], 5⟩ :
        DataBlock).schema =
      (["b", "a"].map (fun name => DataField.mk name .Vu8Type)) := by
  have hlib : ∀ a n c, libOne.deserializer_next a n = some (.ok c) →
      c.len = n := by
    intro a n c h
    simp only [libOne] at h
    cases h
    rfl
  have h := claim_c2 libOne stNone dalOne ["b", "a"] "p"
    ⟨[⟨"b", .Vu8Type⟩, ⟨"a", .Vu8Type⟩], [[4, 5, 6, 7], [0, 1, 2, 3]], 5⟩
    ⟨none, none, [("p", 4, 4 + 4), ("p", 0, 0 + 4)], ["p"]⟩ hlib (by decide)
  exact ⟨rfl, h.1⟩

/-- C1: the claim says a file whose metadata holds more than one row group
makes load_bloom_filter_by_columns fail fast with a format error.  The code
performs no such check: on the two-row-group file metaTwo the call succeeds
and returns a block decoded from row group zero alone, so the claim describes
the spec's stated intent (sections 4.3 and 9 of the spec) and the code
diverges from it. -/
theorem claim_c1 :
    metaTwo.row_groups.length = 2 ∧
    (load_bloom_filter_by_columns libOne stNone dalTwo ["a"] "p").1 =
      .ok ⟨[⟨"a", .Vu8Type⟩], [[0, 1, 2, 3]], 5⟩ := by
  decide

/-- The only runtime panic the column search itself can raise is the one for
an empty schema path. -/
theorem findColumn_panic_msg :
    ∀ (cols : List ColumnChunkMetaData) (i : Nat) (name m : String),
      findColumn cols i name = .panicked m →
      m = "index out of bounds: path_in_schema" := by
  intro cols
  induction cols with
  | nil => intro i name m h; simp [findColumn] at h
  | cons c rest ih =>
    intro i name m h
    simp only [findColumn] at h
    match hc : c.path_in_schema with
    | [] =>
      rw [hc] at h
      cases h
      rfl
    | p :: ps =>
      rw [hc] at h
      by_cases hp : p = name
      · simp [hp] at h
      · simp only [hp, if_false] at h
        exact ih (i + 1) name m h

/-- A raw column fetch yields a value or a typed error, never a panic. -/
theorem load_data_not_panicked (cm : ColumnChunkMetaData) (dal : Operator)
    (path : String) (st : St) (m : String) (st2 : St) :
    load_data cm dal path st ≠ (.panicked m, st2) := by
  simp only [load_data]
  split <;> simp

/-- C9: the row-group list is indexed at position zero with no emptiness
check: with at least one row group, load_column_bytes never raises the
row-group indexing panic; with zero row groups, both load_column_bytes and
load_bloom_filter_by_columns (run on metadata parsed with zero row groups)
end in the out-of-bounds panic rather than a typed error. -/
theorem claim_c9 :
    (∀ (st : St) (fm : FileMetaData) (name path : String) (dal : Operator)
      (rg : RowGroup) (rgs : List RowGroup), fm.row_groups = rg :: rgs →
      (load_column_bytes st fm name path dal).1 ≠ .panicked rowGroupsPanic) ∧
    (∀ (st : St) (fm : FileMetaData) (name path : String) (dal : Operator),
      fm.row_groups = [] →
      load_column_bytes st fm name path dal = (.panicked rowGroupsPanic, st)) ∧
    (∀ (lib : ArrowLib) (st : St) (dal : Operator) (cols : List String)
      (path : String) (fm : FileMetaData) (st1 : St),
      read_index_meta st path dal = (.ok fm, st1) → fm.row_groups = [] →
      load_bloom_filter_by_columns lib st dal cols path =
        (.panicked rowGroupsPanic, st1)) := by
  refine ⟨?_, ?_, ?_⟩
  · intro st fm name path dal rg rgs hrg
    simp only [load_column_bytes, hrg]
    repeat' split
    all_goals simp_all [rowGroupsPanic]
    · rename_i x m heq
      have := findColumn_panic_msg rg.columns 0 name m heq
      subst this
      decide
    · rename_i m st2 heq
      exact absurd heq (load_data_not_panicked _ _ _ _ _ _)
    · rename_i m st2 heq
      exact absurd heq (load_data_not_panicked _ _ _ _ _ _)
  · intro st fm name path dal hrg
    simp [load_column_bytes, hrg]
  · intro lib st dal cols path fm st1 hread hrg
    simp [load_bloom_filter_by_columns, hread, hrg]

/-- C9 witness: concrete instances of all three parts. -/
theorem claim_c9_witness :
    (load_column_bytes stNone metaOne "a" "p" dalOne).1 ≠
      .panicked rowGroupsPanic ∧
    load_column_bytes stNone ⟨[], []⟩ "a" "p" dalOne =
      (.panicked rowGroupsPanic, stNone) ∧
    load_bloom_filter_by_columns libOne stNone
      ⟨dalOne.range_read, fun _ => .ok ⟨[], []⟩⟩ ["a"] "p" =
      (.panicked rowGroupsPanic,
        ⟨none, none, [], ["p"]⟩) := by
  refine ⟨claim_c9.1 stNone metaOne "a" "p" dalOne rgAB [] rfl,
    claim_c9.2.1 stNone ⟨[], []⟩ "a" "p" dalOne rfl,
    claim_c9.2.2 libOne stNone _ ["a"] "p" ⟨[], []⟩ _ (by decide) rfl⟩

end Fuse

namespace IntDivFn

/-- A zero element anywhere in the zipped divisor array makes the elementwise
division fail with the division-by-zero error (the per-element check fires and
collection fails fast, and every zero raises the same error). -/
theorem tryBinary_zero :
    ∀ (ls rs : List ℚ), ls.length = rs.length → (0 : ℚ) ∈ rs →
      tryBinary ls rs (fun l r =>
        if r = 0 then .error (.BadArguments "Division by zero")
        else .ok (truncQ (l / r))) =
      .error (.BadArguments "Division by zero") := by
  intro ls
  induction ls with
  | nil =>
    intro rs hlen hmem
    cases rs with
    | nil => simp at hmem
    | cons r rs' => simp at hlen
  | cons l ls' ih =>
    intro rs hlen hmem
    cases rs with
    | nil => simp at hmem
    | cons r rs' =>
      simp only [tryBinary]
      by_cases hr : r = 0
      · simp [hr]
      · rcases List.mem_cons.mp hmem with h0 | h0
        · exact absurd h0.symm hr
        · simp only [hr, if_false]
          rw [ih rs' (by simpa using hlen) h0]

/-- Same fact for the constant-over-array case's elementwise division. -/
theorem tryUnary_zero (lhs : ℚ) :
    ∀ rs : List ℚ, (0 : ℚ) ∈ rs →
      tryUnary rs (fun r =>
        if r = 0 then .error (.BadArguments "Division by zero")
        else .ok (truncQ (lhs / r))) =
      .error (.BadArguments "Division by zero") := by
  intro rs
  induction rs with
  | nil => intro hmem; simp at hmem
  | cons r rs' ih =>
    intro hmem
    simp only [tryUnary]
    by_cases hr : r = 0
    · simp [hr]
    · rcases List.mem_cons.mp hmem with h0 | h0
      · exact absurd h0.symm hr
      · simp only [hr, if_false]
        rw [ih h0]

/-- C10: in every operand-shape case of ArithmeticIntDiv::arithmetic, a
divisor equal to zero (an array element, or a constant whose conversion to the
divisor type succeeded with value zero) yields the BadArguments division-by-
zero error and no result column, while a constant divisor whose conversion
failed is silently replaced with one and the operation succeeds. -/
theorem claim_c10 :
    (∀ ls rs : List ℚ, ls.length = rs.length → (0 : ℚ) ∈ rs →
      arithmetic (.array ls) (.array rs) =
        .error (.BadArguments "Division by zero")) ∧
    (∀ (ls : List ℚ) (size : Nat),
      arithmetic (.array ls) (.constant (some 0) size) =
        .error (.BadArguments "Division by zero")) ∧
    (∀ (lv : Option ℚ) (size : Nat) (rs : List ℚ), (0 : ℚ) ∈ rs →
      arithmetic (.constant lv size) (.array rs) =
        .error (.BadArguments "Division by zero")) ∧
    (∀ (lv : Option ℚ) (size1 size2 : Nat),
      arithmetic (.constant lv size1) (.constant (some 0) size2) =
        .error (.BadArguments "Division by zero")) ∧
    (∀ (ls : List ℚ) (size : Nat),
      arithmetic (.array ls) (.constant none size) =
        .ok (.array (ls.map (fun l => truncQ (l / (1 : ℚ)))))) ∧
    (∀ (lv : Option ℚ) (size1 size2 : Nat),
      arithmetic (.constant lv size1) (.constant none size2) =
        .ok (.constant (some (truncQ (lv.getD 0 / (1 : ℚ)))) size1)) := by
  refine ⟨?_, ?_, ?_, ?_, ?_, ?_⟩
  · intro ls rs hlen hmem
    simp only [arithmetic]
    rw [tryBinary_zero ls rs hlen hmem]
  · intro ls size
    simp [arithmetic]
  · intro lv size rs hmem
    simp only [arithmetic]
    rw [tryUnary_zero (lv.getD 0) rs hmem]
  · intro lv size1 size2
    simp [arithmetic]
  · intro ls size
    simp [arithmetic]
  · intro lv size1 size2
    simp [arithmetic]

/-- C10 witness: all six parts exercised on concrete columns. -/
theorem claim_c10_witness :
    arithmetic (.array [7]) (.array [0]) =
      .error (.BadArguments "Division by zero") ∧
    arithmetic (.array [7]) (.constant (some 0) 1) =
      .error (.BadArguments "Division by zero") ∧
    arithmetic (.constant (some 7) 1) (.array [0]) =
      .error (.BadArguments "Division by zero") ∧
    arithmetic (.constant (some 7) 1) (.constant (some 0) 1) =
      .error (.BadArguments "Division by zero") ∧
    arithmetic (.array [7]) (.constant none 1) =
      .ok (.array ([7].map (fun l => truncQ (l / (1 : ℚ))))) ∧
    arithmetic (.constant (some 7) 1) (.constant none 1) =
      .ok (.constant (some (truncQ ((some (7 : ℚ)).getD 0 / (1 : ℚ)))) 1) :=
  ⟨claim_c10.1 [7] [0] rfl (by simp),
    claim_c10.2.1 [7] 1,
    claim_c10.2.2.1 (some 7) 1 [0] (by simp),
    claim_c10.2.2.2.1 (some 7) 1 1,
    claim_c10.2.2.2.2.1 [7] 1,
    claim_c10.2.2.2.2.2 (some 7) 1 1⟩

end IntDivFn

namespace Fuse

theorem cacheGet_mem {α : Type} :
    ∀ (cache : List (String × α)) (k : String) (b : α),
      cacheGet cache k = some b → (k, b) ∈ cache := by
  intro cache
  induction cache with
  | nil => intro k b h; simp [cacheGet] at h
  | cons e rest ih =>
    intro k b h
    obtain ⟨k0, b0⟩ := e
    simp only [cacheGet] at h
    by_cases hk : k0 = k
    · subst hk
      simp at h
      subst h
      simp
    · simp only [hk, if_false] at h
      exact List.mem_cons_of_mem _ (ih k b h)

theorem findColumn_get? :
    ∀ (cols : List ColumnChunkMetaData) (i : Nat) (c : String) (idx : Nat)
      (cm : ColumnChunkMetaData),
      findColumn cols i c = .found idx cm →
      ∃ j, idx = i + j ∧ cols.get? j = some cm := by
  intro cols
  induction cols with
  | nil => intro i c idx cm h; simp [findColumn] at h
  | cons c0 rest ih =>
    intro i c idx cm h
    simp only [findColumn] at h
    match hp : c0.path_in_schema with
    | [] => rw [hp] at h; cases h
    | p :: ps =>
      rw [hp] at h
      by_cases hc : p = c
      · simp only [hc, if_true] at h
        cases h
        exact ⟨0, by omega, rfl⟩
      · simp only [hc, if_false] at h
        obtain ⟨j, hj, hget⟩ := ih (i + 1) c idx cm h
        exact ⟨j + 1, by omega, by simpa using hget⟩

theorem load_data_state (cm : ColumnChunkMetaData) (dal : Operator)
    (path : String) (st : St) :
    (load_data cm dal path st).2 =
      { st with rangeReads := st.rangeReads ++
          [(path, cm.data_page_offset,
            cm.data_page_offset + cm.total_compressed_size)] } := by
  simp only [load_data]
  split <;> rfl

theorem load_index_meta_state (dal : Operator) (path : String) (st : St) :
    (load_index_meta dal path st).2 =
      { st with metaReads := st.metaReads ++ [path] } := by
  simp only [load_index_meta]
  split <;> rfl

theorem load_column_bytes_state (st : St) (fm : FileMetaData)
    (c path : String) (dal : Operator) :
    (load_column_bytes st fm c path dal).2 = st ∨
    (∃ cm : ColumnChunkMetaData,
      (load_column_bytes st fm c path dal).2 =
        { st with rangeReads := st.rangeReads ++
            [(path, cm.data_page_offset,
              cm.data_page_offset + cm.total_compressed_size)] }) ∨
    (∃ (cm : ColumnChunkMetaData) (cache : List (String × Bytes))
      (k2 : String) (b2 : Bytes),
      st.byteCache = some cache ∧ cacheGet cache k2 = none ∧
      (load_column_bytes st fm c path dal).2 =
        { st with
            byteCache := some ((k2, b2) :: cache)
            rangeReads := st.rangeReads ++
              [(path, cm.data_page_offset,
                cm.data_page_offset + cm.total_compressed_size)] }) := by
  simp only [load_column_bytes]
  cases hrg : fm.row_groups with
  | nil => left; rfl
  | cons rg rgs =>
  cases hfind : findColumn rg.columns 0 c with
  | panicked m => simp only [hfind]; left; trivial
  | notFound => simp only [hfind]; left; trivial
  | found idx cm =>
  simp only [hfind]
  cases hbc : st.byteCache with
  | none =>
    simp only [hbc]
    rcases hld : load_data cm dal path st with ⟨r, st2⟩
    have h3 := congrArg Prod.snd hld
    rw [load_data_state] at h3
    simp only at h3
    subst h3
    try simp only [hld]
    cases r with
    | ok b => right; left; exact ⟨cm, by simp [hbc]⟩
    | err e => right; left; exact ⟨cm, by simp [hbc]⟩
    | panicked m => right; left; exact ⟨cm, by simp [hbc]⟩
  | some cache =>
  simp only [hbc]
  cases hget : cacheGet cache (mkKey path idx) with
  | some bytes => simp only [hget]; left; trivial
  | none =>
    simp only [hget]
    rcases hld : load_data cm dal path st with ⟨r, st2⟩
    have h3 := congrArg Prod.snd hld
    rw [load_data_state] at h3
    simp only at h3
    subst h3
    try simp only [hld]
    cases r with
    | ok b =>
      right; right
      exact ⟨cm, cache, mkKey path idx, b, rfl, hget, by simp [hbc, cachePut]⟩
    | err e => right; left; exact ⟨cm, by simp [hbc]⟩
    | panicked m => right; left; exact ⟨cm, by simp [hbc]⟩

end Fuse

namespace Fuse

theorem read_index_meta_state (st : St) (path : String) (dal : Operator) :
    (read_index_meta st path dal).2 = st ∨
    (read_index_meta st path dal).2 =
      { st with metaReads := st.metaReads ++ [path] } ∨
    (∃ (cache : List (String × FileMetaData)) (fm2 : FileMetaData),
      st.metaCache = some cache ∧ cacheGet cache (path ++ "-bf") = none ∧
      (read_index_meta st path dal).2 =
        { st with
            metaCache := some ((path ++ "-bf", fm2) :: cache)
            metaReads := st.metaReads ++ [path] }) := by
  simp only [read_index_meta]
  cases hmc : st.metaCache with
  | none =>
    simp only [hmc]
    right; left
    rw [load_index_meta_state]
    simp [hmc]
  | some cache =>
  simp only [hmc]
  cases hget : cacheGet cache (path ++ "-bf") with
  | some fm2 => simp only [hget]; left; trivial
  | none =>
    simp only [hget]
    rcases hld : load_index_meta dal path st with ⟨r, st2⟩
    have h3 := congrArg Prod.snd hld
    rw [load_index_meta_state] at h3
    simp only at h3
    subst h3
    try simp only [hld]
    cases r with
    | ok fm2 =>
      right; right
      exact ⟨cache, fm2, rfl, hget, by simp [hmc, cachePut]⟩
    | err e => right; left; simp [hmc]
    | panicked m => right; left; simp [hmc]

/-- The column loader touches neither the metadata cache nor the metadata
read log. -/
theorem load_column_bytes_meta (st : St) (fm : FileMetaData)
    (c path : String) (dal : Operator) :
    (load_column_bytes st fm c path dal).2.metaCache = st.metaCache ∧
    (load_column_bytes st fm c path dal).2.metaReads = st.metaReads := by
  rcases load_column_bytes_state st fm c path dal with h | ⟨cm, h⟩ |
    ⟨cm, cache, k2, b2, _, _, h⟩ <;> rw [h]
  all_goals exact ⟨rfl, rfl⟩

/-- The metadata loader touches neither the byte cache nor the range-read
log. -/
theorem read_index_meta_bytes (st : St) (path : String) (dal : Operator) :
    (read_index_meta st path dal).2.byteCache = st.byteCache ∧
    (read_index_meta st path dal).2.rangeReads = st.rangeReads := by
  rcases read_index_meta_state st path dal with h | h |
    ⟨cache, fm2, _, _, h⟩ <;> rw [h]
  all_goals exact ⟨rfl, rfl⟩

/-- A column load leaves the byte cache unchanged or inserts one binding at a
key that was unbound. -/
theorem load_column_bytes_cache_change (st : St) (fm : FileMetaData)
    (c path : String) (dal : Operator) :
    (load_column_bytes st fm c path dal).2.byteCache = st.byteCache ∨
    ∃ (cache : List (String × Bytes)) (k2 : String) (b2 : Bytes),
      st.byteCache = some cache ∧ cacheGet cache k2 = none ∧
      (load_column_bytes st fm c path dal).2.byteCache =
        some ((k2, b2) :: cache) := by
  rcases load_column_bytes_state st fm c path dal with h | ⟨cm, h⟩ |
    ⟨cm, cache, k2, b2, hbc, hget, h⟩
  · left; rw [h]
  · left; rw [h]
  · right; exact ⟨cache, k2, b2, hbc, hget, by rw [h]⟩

end Fuse

namespace Fuse

/-- Explicit form of load_data as a pair. -/
theorem load_data_eq (cm : ColumnChunkMetaData) (dal : Operator)
    (path : String) (st : St) :
    load_data cm dal path st =
      ((match dal.range_read path cm.data_page_offset
          (cm.data_page_offset + cm.total_compressed_size) with
        | .ok b => RResult.ok b
        | .error e => RResult.err e),
       { st with rangeReads := st.rangeReads ++
          [(path, cm.data_page_offset,
            cm.data_page_offset + cm.total_compressed_size)] }) := by
  simp only [load_data]
  split <;> simp_all

/-- Explicit form of load_index_meta as a pair. -/
theorem load_index_meta_eq (dal : Operator) (path : String) (st : St) :
    load_index_meta dal path st =
      ((match dal.read_metadata path with
        | .ok fm => RResult.ok fm
        | .error e => RResult.err e),
       { st with metaReads := st.metaReads ++ [path] }) := by
  simp only [load_index_meta]
  split <;> simp_all

/-- A stable column resolution is what loading the column returns. -/
theorem ColStable_val {fm : FileMetaData} {path : String} {dal : Operator}
    {st : St} {c : String} {v : Bytes × Nat}
    (h : ColStable fm path dal st c v) :
    (load_column_bytes st fm c path dal).1 = .ok v := by
  obtain ⟨rg, rgs, cm, hrg, hfind, hres⟩ := h
  obtain ⟨b, idx⟩ := v
  cases hbc : st.byteCache with
  | some cache =>
    rw [hbc] at hres
    simp only at hres
    simp [load_column_bytes, hrg, hfind, hbc, hres]
  | none =>
    rw [hbc] at hres
    simp only at hres
    simp [load_column_bytes, hrg, hfind, hbc, load_data_eq, hres]

/-- Loading a column successfully leaves the column stable in the resulting
state. -/
theorem ColStable_establish {st : St} {fm : FileMetaData} {c path : String}
    {dal : Operator} {v : Bytes × Nat} {st1 : St}
    (h : load_column_bytes st fm c path dal = (.ok v, st1)) :
    ColStable fm path dal st1 c v := by
  simp only [load_column_bytes] at h
  rcases hrg : fm.row_groups with _ | ⟨rg, rgs⟩
  · rw [hrg] at h; simp at h
  rw [hrg] at h
  simp only at h
  rcases hfind : findColumn rg.columns 0 c with m | _ | ⟨idx, cm⟩ <;>
    rw [hfind] at h
  · simp at h
  · simp at h
  simp only at h
  cases hbc : st.byteCache with
  | some cache =>
    rw [hbc] at h
    simp only at h
    cases hget : cacheGet cache (mkKey path idx) with
    | some b0 =>
      rw [hget] at h
      simp only [Prod.mk.injEq, RResult.ok.injEq] at h
      obtain ⟨hv, hst⟩ := h
      subst hv
      subst hst
      exact ⟨rg, rgs, cm, hrg, hfind, by rw [hbc]; exact hget⟩
    | none =>
      rw [hget, load_data_eq] at h
      rcases hr : dal.range_read path cm.data_page_offset
          (cm.data_page_offset + cm.total_compressed_size) with e | b0 <;>
        rw [hr] at h
      · simp at h
      · simp only [Prod.mk.injEq, RResult.ok.injEq] at h
        obtain ⟨hv, hst⟩ := h
        subst hv
        refine ⟨rg, rgs, cm, hrg, hfind, ?_⟩
        rw [← hst]
        simp [cachePut, cacheGet]
  | none =>
    rw [hbc] at h
    simp only at h
    rw [load_data_eq] at h
    rcases hr : dal.range_read path cm.data_page_offset
        (cm.data_page_offset + cm.total_compressed_size) with e | b0 <;>
      rw [hr] at h
    · simp at h
    · simp only [Prod.mk.injEq, RResult.ok.injEq] at h
      obtain ⟨hv, hst⟩ := h
      subst hv
      refine ⟨rg, rgs, cm, hrg, hfind, ?_⟩
      rw [← hst]
      simpa [hbc] using hr

/-- Stability only depends on the byte cache. -/
theorem ColStable_of_byteCache_eq {fm : FileMetaData} {path : String}
    {dal : Operator} {st st1 : St} {c : String} {v : Bytes × Nat}
    (h1 : st1.byteCache = st.byteCache) (h : ColStable fm path dal st c v) :
    ColStable fm path dal st1 c v := by
  obtain ⟨rg, rgs, cm, hrg, hfind, hres⟩ := h
  exact ⟨rg, rgs, cm, hrg, hfind, by rw [h1]; exact hres⟩

/-- Any other column load preserves a stable resolution. -/
theorem ColStable_frame {fm : FileMetaData} {path : String} {dal : Operator}
    {st : St} {c : String} {v : Bytes × Nat}
    (h : ColStable fm path dal st c v) (c2 : String) :
    ColStable fm path dal (load_column_bytes st fm c2 path dal).2 c v := by
  obtain ⟨rg, rgs, cm, hrg, hfind, hres⟩ := h
  refine ⟨rg, rgs, cm, hrg, hfind, ?_⟩
  rcases load_column_bytes_cache_change st fm c2 path dal with hch |
    ⟨cache, k2, b2, hbc, hget, hch⟩
  · rw [hch]; exact hres
  · rw [hch]
    rw [hbc] at hres
    simp only at hres
    simp only [cacheGet]
    by_cases hk : k2 = mkKey path v.2
    · subst hk
      rw [hget] at hres
      cases hres
    · simp only [hk, if_false]
      exact hres

end Fuse

namespace Fuse

/-- A stable metadata resolution is what reading the metadata returns. -/
theorem MetaStable_val {path : String} {dal : Operator} {st : St}
    {fm : FileMetaData} (h : MetaStable path dal st fm) :
    (read_index_meta st path dal).1 = .ok fm := by
  cases hmc : st.metaCache with
  | some cache =>
    rw [MetaStable, hmc] at h
    simp only at h
    simp [read_index_meta, hmc, h]
  | none =>
    rw [MetaStable, hmc] at h
    simp only at h
    simp [read_index_meta, hmc, load_index_meta_eq, h]

/-- Reading the metadata successfully leaves it stable in the resulting
state. -/
theorem MetaStable_establish {st : St} {path : String} {dal : Operator}
    {fm : FileMetaData} {st1 : St}
    (h : read_index_meta st path dal = (.ok fm, st1)) :
    MetaStable path dal st1 fm := by
  simp only [read_index_meta] at h
  cases hmc : st.metaCache with
  | some cache =>
    rw [hmc] at h
    simp only at h
    cases hget : cacheGet cache (path ++ "-bf") with
    | some fm2 =>
      rw [hget] at h
      simp only [Prod.mk.injEq, RResult.ok.injEq] at h
      obtain ⟨hv, hst⟩ := h
      subst hv
      subst hst
      rw [MetaStable, hmc]
      exact hget
    | none =>
      rw [hget, load_index_meta_eq] at h
      rcases hr : dal.read_metadata path with e | fm2 <;> rw [hr] at h
      · simp at h
      · simp only [Prod.mk.injEq, RResult.ok.injEq] at h
        obtain ⟨hv, hst⟩ := h
        subst hv
        rw [MetaStable, ← hst]
        simp [cachePut, cacheGet]
  | none =>
    rw [hmc] at h
    simp only at h
    rw [load_index_meta_eq] at h
    rcases hr : dal.read_metadata path with e | fm2 <;> rw [hr] at h
    · simp at h
    · simp only [Prod.mk.injEq, RResult.ok.injEq] at h
      obtain ⟨hv, hst⟩ := h
      subst hv
      rw [MetaStable, ← hst]
      simpa [hmc] using hr

/-- Metadata stability only depends on the metadata cache. -/
theorem MetaStable_of_metaCache_eq {path : String} {dal : Operator}
    {st st1 : St} {fm : FileMetaData}
    (h1 : st1.metaCache = st.metaCache) (h : MetaStable path dal st fm) :
    MetaStable path dal st1 fm := by
  rw [MetaStable, h1]
  exact h

/-- The fan-out touches neither the metadata cache nor the metadata read
log. -/
theorem load_all_columns_meta (fm : FileMetaData) (path : String)
    (dal : Operator) :
    ∀ (cols : List String) (st : St),
      (load_all_columns st fm cols path dal).2.metaCache = st.metaCache := by
  intro cols
  induction cols with
  | nil => intro st; rfl
  | cons c0 rest ih =>
    intro st
    simp only [load_all_columns]
    rcases hld : load_column_bytes st fm c0 path dal with ⟨r, st2⟩
    have hmeta : st2.metaCache = st.metaCache := by
      have := (load_column_bytes_meta st fm c0 path dal).1
      rw [hld] at this
      exact this
    cases r with
    | ok v =>
      simp only
      rcases hrest : load_all_columns st2 fm rest path dal with ⟨r2, st3⟩
      have h2 : st3.metaCache = st2.metaCache := by
        have := ih st2
        rw [hrest] at this
        exact this
      cases r2 <;> simp only <;> rw [h2, hmeta]
    | err e => simp only; exact hmeta
    | panicked m => simp only; exact hmeta

/-- The fan-out preserves any stable column resolution. -/
theorem load_all_columns_frame {fm : FileMetaData} {path : String}
    {dal : Operator} {c : String} {v : Bytes × Nat} :
    ∀ (cols : List String) (st : St), ColStable fm path dal st c v →
      ColStable fm path dal (load_all_columns st fm cols path dal).2 c v := by
  intro cols
  induction cols with
  | nil => intro st h; exact h
  | cons c0 rest ih =>
    intro st h
    simp only [load_all_columns]
    rcases hld : load_column_bytes st fm c0 path dal with ⟨r, st2⟩
    have h2 : ColStable fm path dal st2 c v := by
      have := ColStable_frame h c0
      rw [hld] at this
      exact this
    cases r with
    | ok v2 =>
      simp only
      rcases hrest : load_all_columns st2 fm rest path dal with ⟨r2, st3⟩
      have h3 : ColStable fm path dal st3 c v := by
        have := ih st2 h2
        rw [hrest] at this
        exact this
      cases r2 <;> simp only <;> exact h3
    | err e => simp only; exact h2
    | panicked m => simp only; exact h2

/-- A successful fan-out leaves every requested column stable, with its
returned value, in the final state. -/
theorem load_all_columns_establish {fm : FileMetaData} {path : String}
    {dal : Operator} :
    ∀ (cols : List String) (st : St) (vs : List (Bytes × Nat)) (st1 : St),
      load_all_columns st fm cols path dal = (.ok vs, st1) →
      List.Forall₂ (ColStable fm path dal st1) cols vs := by
  intro cols
  induction cols with
  | nil =>
    intro st vs st1 h
    simp only [load_all_columns, Prod.mk.injEq, RResult.ok.injEq] at h
    obtain ⟨hv, hst⟩ := h
    subst hv
    exact List.Forall₂.nil
  | cons c0 rest ih =>
    intro st vs st1 h
    simp only [load_all_columns] at h
    rcases hld : load_column_bytes st fm c0 path dal with ⟨r, st2⟩
    rw [hld] at h
    cases r with
    | ok v =>
      simp only at h
      rcases hrest : load_all_columns st2 fm rest path dal with ⟨r2, st3⟩
      rw [hrest] at h
      cases r2 with
      | ok vs2 =>
        simp only [Prod.mk.injEq, RResult.ok.injEq] at h
        obtain ⟨hv, hst⟩ := h
        subst hv
        subst hst
        refine List.Forall₂.cons ?_ (ih st2 vs2 _ hrest)
        have hstable := ColStable_establish hld
        have := load_all_columns_frame rest st2 hstable
        rw [hrest] at this
        exact this
      | err e => simp at h
      | panicked m => simp at h
    | err e => simp at h
    | panicked m => simp at h

/-- A state in which every requested column is stable replays the fan-out:
it returns exactly the stable values. -/
theorem load_all_columns_replay {fm : FileMetaData} {path : String}
    {dal : Operator} :
    ∀ (cols : List String) (vs : List (Bytes × Nat)) (st : St),
      List.Forall₂ (ColStable fm path dal st) cols vs →
      ∃ st2, load_all_columns st fm cols path dal = (.ok vs, st2) := by
  intro cols
  induction cols with
  | nil =>
    intro vs st h
    cases h
    exact ⟨st, rfl⟩
  | cons c0 rest ih =>
    intro vs st h
    cases h with
    | cons hcv hrest =>
      rename_i v vs2
      rcases hld : load_column_bytes st fm c0 path dal with ⟨r, st2⟩
      have hr1 : r = .ok v := by
        have := ColStable_val hcv
        rw [hld] at this
        exact this
      subst hr1
      have hrest2 : List.Forall₂ (ColStable fm path dal st2) rest vs2 := by
        refine List.Forall₂.imp ?_ hrest
        intro a b hab
        have := ColStable_frame hab c0
        rw [hld] at this
        exact this
      obtain ⟨st3, hall⟩ := ih vs2 st2 hrest2
      exact ⟨st3, by simp [load_all_columns, hld, hall]⟩

end Fuse

namespace Fuse

/-- C6: idempotence.  A second call with the same arguments, run from the
state the first successful call produced, returns the same block: identical
row count, column order, and byte content.  The caches populated by the first
call (or already coherent hits it relied on) reproduce every resolution. -/
theorem claim_c6 (lib : ArrowLib) (st0 : St) (dal : Operator)
    (cols : List String) (path : String) (b1 : DataBlock) (st1 : St)
    (h : load_bloom_filter_by_columns lib st0 dal cols path = (.ok b1, st1)) :
    (load_bloom_filter_by_columns lib st1 dal cols path).1 = .ok b1 := by
  simp only [load_bloom_filter_by_columns] at h
  rcases hread : read_index_meta st0 path dal with ⟨rm, stA⟩
  rw [hread] at h
  cases rm with
  | err e => simp at h
  | panicked m => simp at h
  | ok fm =>
  simp only at h
  rcases hrgs : fm.row_groups with _ | ⟨rg, rgs⟩
  · rw [hrgs] at h; simp at h
  rw [hrgs] at h
  simp only at h
  rcases hcols : load_all_columns stA fm cols path dal with ⟨rc, stB⟩
  rw [hcols] at h
  cases rc with
  | err e => simp at h
  | panicked m => simp at h
  | ok vs =>
  simp only at h
  rcases hinfer : lib.infer_schema fm with e | asch <;> rw [hinfer] at h
  · simp at h
  simp only at h
  rcases hbuild : build_arrays lib fm asch rg.num_rows vs with iters | e | m <;>
    rw [hbuild] at h
  case err => simp at h
  case panicked => simp at h
  simp only at h
  rcases hnext : lib.deserializer_next iters rg.num_rows with _ | ec <;>
    rw [hnext] at h
  · simp at h
  rcases ec with cause | chunk
  · simp at h
  simp only [Prod.mk.injEq, RResult.ok.injEq] at h
  obtain ⟨hb, hst⟩ := h
  subst hb
  subst hst
  -- second call
  have hmetaA : MetaStable path dal stA fm := MetaStable_establish hread
  have hmetaB : MetaStable path dal stB fm := by
    refine MetaStable_of_metaCache_eq ?_ hmetaA
    have := load_all_columns_meta fm path dal cols stA
    rw [hcols] at this
    exact this
  have hforallB : List.Forall₂ (ColStable fm path dal stB) cols vs :=
    load_all_columns_establish cols stA vs stB hcols
  simp only [load_bloom_filter_by_columns]
  rcases hread2 : read_index_meta stB path dal with ⟨rm2, stC⟩
  have hrm2 : rm2 = .ok fm := by
    have := MetaStable_val hmetaB
    rw [hread2] at this
    exact this
  subst hrm2
  simp only
  rw [hrgs]
  simp only
  have hforallC : List.Forall₂ (ColStable fm path dal stC) cols vs := by
    refine List.Forall₂.imp ?_ hforallB
    intro a b hab
    refine ColStable_of_byteCache_eq ?_ hab
    have := (read_index_meta_bytes stB path dal).1
    rw [hread2] at this
    exact this
  obtain ⟨stD, hall2⟩ := load_all_columns_replay cols vs stC hforallC
  rw [hall2]
  simp only
  rw [hinfer]
  simp only
  rw [hbuild]
  simp only
  rw [hnext]

end Fuse


namespace Fuse

/-- C6 witness: the concrete first call from empty caches succeeds, and the
second call from the state it produced returns the identical block. -/
theorem claim_c6_witness :
    (load_bloom_filter_by_columns libOne
      ⟨some [("p-0", [0, 1, 2, 3])], some [("p-bf", metaOne)],
        [("p", 0, 4)], ["p"]⟩
      dalOne ["a"] "p").1 =
      .ok ⟨[⟨"a", .Vu8Type⟩], [[0, 1, 2, 3]], 5⟩ :=
  claim_c6 libOne stEmpty dalOne ["a"] "p"
    ⟨[⟨"a", .Vu8Type⟩], [[0, 1, 2, 3]], 5⟩
    ⟨some [("p-0", [0, 1, 2, 3])], some [("p-bf", metaOne)],
      [("p", 0, 4)], ["p"]⟩
    (by decide)

end Fuse

namespace Fuse

/-- Evaluation of the column loader when the metadata has no row group. -/
theorem load_column_bytes_empty_eq {st : St} {fm : FileMetaData}
    {c path : String} {dal : Operator} (hrg : fm.row_groups = []) :
    load_column_bytes st fm c path dal = (.panicked rowGroupsPanic, st) := by
  simp [load_column_bytes, hrg]

/-- Evaluation of the column loader when the column search raises the
empty-path panic. -/
theorem load_column_bytes_panic_eq {st : St} {fm : FileMetaData}
    {c path : String} {dal : Operator} {rg : RowGroup} {rgs : List RowGroup}
    {m : String} (hrg : fm.row_groups = rg :: rgs)
    (hfind : findColumn rg.columns 0 c = .panicked m) :
    load_column_bytes st fm c path dal = (.panicked m, st) := by
  simp [load_column_bytes, hrg, hfind]

/-- Evaluation of the column loader when the column is absent. -/
theorem load_column_bytes_notFound_eq {st : St} {fm : FileMetaData}
    {c path : String} {dal : Operator} {rg : RowGroup} {rgs : List RowGroup}
    (hrg : fm.row_groups = rg :: rgs)
    (hfind : findColumn rg.columns 0 c = .notFound) :
    load_column_bytes st fm c path dal =
      (.err (.LogicalError ("no such column " ++ c)), st) := by
  simp [load_column_bytes, hrg, hfind]

/-- Evaluation of the column loader with no byte cache: one storage read. -/
theorem load_column_bytes_none_eq {st : St} {fm : FileMetaData}
    {c path : String} {dal : Operator} {rg : RowGroup} {rgs : List RowGroup}
    {idx : Nat} {cm : ColumnChunkMetaData}
    (hn : st.byteCache = none) (hrg : fm.row_groups = rg :: rgs)
    (hfind : findColumn rg.columns 0 c = .found idx cm) :
    load_column_bytes st fm c path dal =
      ((match dal.range_read path cm.data_page_offset
          (cm.data_page_offset + cm.total_compressed_size) with
        | .ok b => RResult.ok (b, idx)
        | .error e => RResult.err e),
       { st with rangeReads := st.rangeReads ++
          [(path, cm.data_page_offset,
            cm.data_page_offset + cm.total_compressed_size)] }) := by
  simp only [load_column_bytes, hrg, hfind, hn, load_data_eq]
  rcases hr : dal.range_read path cm.data_page_offset
      (cm.data_page_offset + cm.total_compressed_size) with e | b <;> simp [hr]

/-- Evaluation of the column loader with a configured byte cache. -/
theorem load_column_bytes_some_eq {st : St} {fm : FileMetaData}
    {c path : String} {dal : Operator} {rg : RowGroup} {rgs : List RowGroup}
    {idx : Nat} {cm : ColumnChunkMetaData}
    {cache : List (String × Bytes)}
    (hbc : st.byteCache = some cache) (hrg : fm.row_groups = rg :: rgs)
    (hfind : findColumn rg.columns 0 c = .found idx cm) :
    load_column_bytes st fm c path dal =
      match cacheGet cache (mkKey path idx) with
      | some bytes => (.ok (bytes, idx), st)
      | none =>
        match dal.range_read path cm.data_page_offset
            (cm.data_page_offset + cm.total_compressed_size) with
        | .ok b =>
          (.ok (b, idx),
            { st with
                byteCache := some (cachePut cache (mkKey path idx) b)
                rangeReads := st.rangeReads ++
                  [(path, cm.data_page_offset,
                    cm.data_page_offset + cm.total_compressed_size)] })
        | .error e =>
          (.err e,
            { st with rangeReads := st.rangeReads ++
                [(path, cm.data_page_offset,
                  cm.data_page_offset + cm.total_compressed_size)] }) := by
  simp only [load_column_bytes, hrg, hfind, hbc, load_data_eq]
  rcases hget : cacheGet cache (mkKey path idx) with _ | b0
  · rcases hr : dal.range_read path cm.data_page_offset
        (cm.data_page_offset + cm.total_compressed_size) with e | b <;>
      simp [hget, hr, hbc]
  · simp [hget]

end Fuse

namespace Fuse

/-- A column load keeps an absent byte cache absent. -/
theorem load_column_bytes_none_pres {st : St} (fm : FileMetaData)
    (c path : String) (dal : Operator) (hn : st.byteCache = none) :
    (load_column_bytes st fm c path dal).2.byteCache = none := by
  rcases load_column_bytes_cache_change st fm c path dal with h |
    ⟨cache, k2, b2, hbc, _, _⟩
  · rw [h, hn]
  · rw [hn] at hbc
    cases hbc

/-- With no byte cache, a successful column load performs exactly one
range-read. -/
theorem load_column_count_none {st : St} {fm : FileMetaData}
    {c path : String} {dal : Operator} {v : Bytes × Nat}
    (hn : st.byteCache = none)
    (h : (load_column_bytes st fm c path dal).1 = .ok v) :
    (load_column_bytes st fm c path dal).2.rangeReads.length =
      st.rangeReads.length + 1 := by
  have h2 : load_column_bytes st fm c path dal =
      (.ok v, (load_column_bytes st fm c path dal).2) := by rw [← h]
  obtain ⟨rg, rgs, cm, hrg, hfind, _⟩ := ColStable_establish h2
  rw [load_column_bytes_none_eq hn hrg hfind]
  simp

/-- With no byte cache, a successful fan-out performs exactly one range-read
per requested column. -/
theorem load_all_count_none {fm : FileMetaData} {path : String}
    {dal : Operator} :
    ∀ (cols : List String) (st : St) (vs : List (Bytes × Nat)) (st2 : St),
      st.byteCache = none →
      load_all_columns st fm cols path dal = (.ok vs, st2) →
      st2.rangeReads.length = st.rangeReads.length + cols.length := by
  intro cols
  induction cols with
  | nil =>
    intro st vs st2 hn h
    simp only [load_all_columns, Prod.mk.injEq, RResult.ok.injEq] at h
    rw [← h.2]
    simp
  | cons c0 rest ih =>
    intro st vs st2 hn h
    simp only [load_all_columns] at h
    rcases hld : load_column_bytes st fm c0 path dal with ⟨r, stn2⟩
    rw [hld] at h
    cases r with
    | ok v =>
      simp only at h
      rcases hrest : load_all_columns stn2 fm rest path dal with ⟨r2, st3⟩
      rw [hrest] at h
      cases r2 with
      | ok vs2 =>
        simp only [Prod.mk.injEq, RResult.ok.injEq] at h
        obtain ⟨hv, hst⟩ := h
        subst hst
        have hn2 : stn2.byteCache = none := by
          have := load_column_bytes_none_pres fm c0 path dal hn
          rw [hld] at this
          exact this
        have hc1 : stn2.rangeReads.length = st.rangeReads.length + 1 := by
          have := load_column_count_none (v := v) hn (by rw [hld])
          rw [hld] at this
          exact this
        have := ih stn2 vs2 _ hn2 hrest
        rw [this, hc1]
        simp only [List.length_cons]
        omega
      | err e => simp at h
      | panicked m => simp at h
    | err e => simp at h
    | panicked m => simp at h

end Fuse

namespace Fuse

/-- One column load behaves identically with no byte cache and with a
storage-coherent byte cache: same returned value, and the cache stays
coherent. -/
theorem load_column_parallel (fm : FileMetaData) (c path : String)
    (dal : Operator) (st_n st_e : St) (cache : List (String × Bytes))
    (hn : st_n.byteCache = none) (he : st_e.byteCache = some cache)
    (hcoh : CacheCoherent fm path dal cache) :
    (load_column_bytes st_n fm c path dal).1 =
      (load_column_bytes st_e fm c path dal).1 ∧
    ∃ cache2,
      (load_column_bytes st_e fm c path dal).2.byteCache = some cache2 ∧
      CacheCoherent fm path dal cache2 := by
  rcases hrg : fm.row_groups with _ | ⟨rg, rgs⟩
  · rw [load_column_bytes_empty_eq hrg, load_column_bytes_empty_eq hrg]
    exact ⟨rfl, cache, he, hcoh⟩
  rcases hfind : findColumn rg.columns 0 c with m | _ | ⟨idx, cm⟩
  · rw [load_column_bytes_panic_eq hrg hfind,
      load_column_bytes_panic_eq hrg hfind]
    exact ⟨rfl, cache, he, hcoh⟩
  · rw [load_column_bytes_notFound_eq hrg hfind,
      load_column_bytes_notFound_eq hrg hfind]
    exact ⟨rfl, cache, he, hcoh⟩
  have hcols0 : rg0cols fm = rg.columns := by rw [rg0cols, hrg]
  have hgetidx : rg.columns.get? idx = some cm := by
    obtain ⟨j, hj, hg⟩ := findColumn_get? rg.columns 0 c idx cm hfind
    rwa [show j = idx by omega] at hg
  rw [load_column_bytes_none_eq hn hrg hfind,
    load_column_bytes_some_eq he hrg hfind]
  rcases hget : cacheGet cache (mkKey path idx) with _ | bh
  · rcases hr : dal.range_read path cm.data_page_offset
        (cm.data_page_offset + cm.total_compressed_size) with e | b
    · exact ⟨rfl, cache, he, hcoh⟩
    · refine ⟨rfl, cachePut cache (mkKey path idx) b, rfl, ?_⟩
      intro k bb hmem
      rcases List.mem_cons.mp hmem with h0 | h0
      · obtain ⟨hk, hb⟩ := Prod.mk.injEq .. ▸ h0
        subst hk
        subst hb
        exact ⟨idx, cm, rfl, by rw [hcols0]; exact hgetidx, hr⟩
      · exact hcoh k bb h0
  · obtain ⟨idx2, cm2, hkey, hget2, hr2⟩ :=
      hcoh (mkKey path idx) bh (cacheGet_mem cache (mkKey path idx) bh hget)
    have hidx : idx2 = idx := mkKey_inj path idx2 idx hkey.symm
    subst hidx
    rw [hcols0] at hget2
    rw [hgetidx] at hget2
    obtain rfl : cm2 = cm := by
      injection hget2 with h0
      exact h0.symm
    rw [hr2]
    exact ⟨rfl, cache, he, hcoh⟩

end Fuse

namespace Fuse

/-- The whole fan-out behaves identically with no byte cache and with a
storage-coherent byte cache: same returned result, and the cache stays
coherent. -/
theorem load_all_parallel (fm : FileMetaData) (path : String)
    (dal : Operator) :
    ∀ (cols : List String) (st_n st_e : St) (cache : List (String × Bytes)),
      st_n.byteCache = none → st_e.byteCache = some cache →
      CacheCoherent fm path dal cache →
      (load_all_columns st_n fm cols path dal).1 =
        (load_all_columns st_e fm cols path dal).1 ∧
      ∃ cache2,
        (load_all_columns st_e fm cols path dal).2.byteCache = some cache2 ∧
        CacheCoherent fm path dal cache2 := by
  intro cols
  induction cols with
  | nil =>
    intro st_n st_e cache hn he hcoh
    exact ⟨rfl, cache, he, hcoh⟩
  | cons c0 rest ih =>
    intro st_n st_e cache hn he hcoh
    obtain ⟨hval, cache2, hbc2, hcoh2⟩ :=
      load_column_parallel fm c0 path dal st_n st_e cache hn he hcoh
    simp only [load_all_columns]
    rcases hldn : load_column_bytes st_n fm c0 path dal with ⟨rn, stn2⟩
    rcases hlde : load_column_bytes st_e fm c0 path dal with ⟨re, ste2⟩
    rw [hldn, hlde] at hval
    simp only at hval
    rw [hlde] at hbc2
    simp only at hbc2
    subst hval
    have hn2 : stn2.byteCache = none := by
      have := load_column_bytes_none_pres fm c0 path dal hn
      rw [hldn] at this
      exact this
    cases rn with
    | ok v =>
      simp only
      obtain ⟨hval2, cache3, hbc3, hcoh3⟩ := ih stn2 ste2 cache2 hn2 hbc2 hcoh2
      rcases hrestn : load_all_columns stn2 fm rest path dal with ⟨rn2, stn3⟩
      rcases hreste : load_all_columns ste2 fm rest path dal with ⟨re2, ste3⟩
      rw [hrestn, hreste] at hval2
      simp only at hval2
      rw [hreste] at hbc3
      simp only at hbc3
      subst hval2
      cases rn2 <;> exact ⟨rfl, cache3, hbc3, hcoh3⟩
    | err e => exact ⟨rfl, cache2, hbc2, hcoh2⟩
    | panicked m => exact ⟨rfl, cache2, hbc2, hcoh2⟩

end Fuse

namespace Fuse

/-- C5: with neither cache configured the loader still succeeds whenever the
cached configuration would, returning an identical result (the first
component compares the full outcome, success or failure, of the uncached run
against the run with both caches configured and empty), and the uncached run
performs exactly one storage range-read per requested column. -/
theorem claim_c5 (lib : ArrowLib) (dal : Operator) (cols : List String)
    (path : String) :
    ((load_bloom_filter_by_columns lib ⟨none, none, [], []⟩ dal cols path).1 =
      (load_bloom_filter_by_columns lib ⟨some [], some [], [], []⟩ dal cols
        path).1) ∧
    (∀ b st2,
      load_bloom_filter_by_columns lib ⟨none, none, [], []⟩ dal cols path =
        (.ok b, st2) →
      st2.rangeReads.length = cols.length) := by
  constructor
  · rcases hr : dal.read_metadata path with e | fm
    · have hreadN : read_index_meta ⟨none, none, [], []⟩ path dal =
          (.err e, ⟨none, none, [], [path]⟩) := by
        simp [read_index_meta, load_index_meta_eq, hr]
      have hreadE : read_index_meta ⟨some [], some [], [], []⟩ path dal =
          (.err e, ⟨some [], some [], [], [path]⟩) := by
        simp [read_index_meta, load_index_meta_eq, cacheGet, hr]
      simp [load_bloom_filter_by_columns, hreadN, hreadE]
    · have hreadN : read_index_meta ⟨none, none, [], []⟩ path dal =
          (.ok fm, ⟨none, none, [], [path]⟩) := by
        simp [read_index_meta, load_index_meta_eq, hr]
      have hreadE : read_index_meta ⟨some [], some [], [], []⟩ path dal =
          (.ok fm, ⟨some [], some [(path ++ "-bf", fm)], [], [path]⟩) := by
        simp [read_index_meta, load_index_meta_eq, cacheGet, hr, cachePut]
      simp only [load_bloom_filter_by_columns, hreadN, hreadE]
      rcases hrgs : fm.row_groups with _ | ⟨rg, rgs⟩
      · simp
      simp only
      have hcoh : CacheCoherent fm path dal [] := by
        intro k b hmem
        simp at hmem
      obtain ⟨hval, cache2, hbc2, hcoh2⟩ :=
        load_all_parallel fm path dal cols ⟨none, none, [], [path]⟩
          ⟨some [], some [(path ++ "-bf", fm)], [], [path]⟩ [] rfl rfl hcoh
      rcases hn2 : load_all_columns ⟨none, none, [], [path]⟩ fm cols path dal
        with ⟨rn, stn2⟩
      rcases he2 : load_all_columns
          ⟨some [], some [(path ++ "-bf", fm)], [], [path]⟩ fm cols path dal
        with ⟨re, ste2⟩
      rw [hn2, he2] at hval
      simp only at hval
      subst hval
      cases rn with
      | err e => simp
      | panicked m => simp
      | ok vs =>
        simp only
        rcases lib.infer_schema fm with e | asch
        · simp
        simp only
        rcases build_arrays lib fm asch rg.num_rows vs with iters | e | m
        case err => simp
        case panicked => simp
        simp only
        rcases lib.deserializer_next iters rg.num_rows with _ | ec
        · simp
        rcases ec with cause | chunk <;> simp
  · intro b st2 h
    simp only [load_bloom_filter_by_columns] at h
    rcases hread : read_index_meta ⟨none, none, [], []⟩ path dal with ⟨rm, stA⟩
    try rw [hread] at h
    cases rm with
    | err e => simp at h
    | panicked m => simp at h
    | ok fm =>
    simp only at h
    have hA := read_index_meta_bytes ⟨none, none, [], []⟩ path dal
    rw [hread] at hA
    rcases hrgs : fm.row_groups with _ | ⟨rg, rgs⟩
    · (try rw [hrgs] at h); simp at h
    try rw [hrgs] at h
    simp only at h
    rcases hcols : load_all_columns stA fm cols path dal with ⟨rc, stB⟩
    try rw [hcols] at h
    cases rc with
    | err e => simp at h
    | panicked m => simp at h
    | ok vs =>
    simp only at h
    have hcount := load_all_count_none cols stA vs stB hA.1 hcols
    rcases hinf : lib.infer_schema fm with e | asch
    · (try rw [hinf] at h); simp at h
    try rw [hinf] at h
    simp only at h
    rcases hbuild : build_arrays lib fm asch rg.num_rows vs with iters | e2 | m2
    case err => (try rw [hbuild] at h); simp at h
    case panicked => (try rw [hbuild] at h); simp at h
    try rw [hbuild] at h
    simp only at h
    rcases hnext : lib.deserializer_next iters rg.num_rows with _ | ec
    · (try rw [hnext] at h); simp at h
    try rw [hnext] at h
    rcases ec with cause | chunk
    · simp at h
    simp only [Prod.mk.injEq, RResult.ok.injEq] at h
    rw [← h.2]
    rw [hcount, hA.2]
    simp

end Fuse

namespace Fuse

/-- C5 witness: the two-column request against the concrete file returns the
same block with and without caches, and the uncached run performed exactly
two range-reads. -/
theorem claim_c5_witness :
    ((load_bloom_filter_by_columns libOne ⟨none, none, [], []⟩ dalOne
        ["b", "a"] "p").1 =
      (load_bloom_filter_by_columns libOne ⟨some [], some [], [], []⟩ dalOne
        ["b", "a"] "p").1) ∧
    (⟨none, none, [("p", 4, 8), ("p", 0, 4)], ["p"]⟩ : St).rangeReads.length =
      (["b", "a"] : List String).length :=
  ⟨(claim_c5 libOne dalOne ["b", "a"] "p").1,
    (claim_c5 libOne dalOne ["b", "a"] "p").2
      ⟨[⟨"b", .Vu8Type⟩, ⟨"a", .Vu8Type⟩], [[4, 5, 6, 7], [0, 1, 2, 3]], 5⟩
      ⟨none, none, [("p", 4, 8), ("p", 0, 4)], ["p"]⟩ (by decide)⟩

end Fuse
